import Mathlib

/-!
Verification of the CSV-to-table reshaping core of `wages_dashboard.py`
(`load_data`): the column cleaner, the melt to long format, the stateful
hierarchical row classifier, and the final row filter.

The embedding works over `List Char` so that every string operation is a
structurally recursive, kernel-computable function mirroring the Python
string primitives used by the source (`in` substring tests, `str.replace`
replacing every occurrence, `str.strip`).  The model of
`pd.to_numeric(..., errors='coerce')` parses what the pandas numeric
converter parses: optionally signed decimal literals with an optional
fractional part and an optional integer exponent suffix, and the words
`inf`/`infinity` (the infinities are values of their own, `PyFloat.pinf`
and `PyFloat.ninf`); the word `nan` parses to NaN, which the downstream
`notna()` filter treats exactly like a coercion failure, so the model folds
both into the missing value `none`.  Every other cell text coerces to
missing.  Year labels are integers, per the input contract (year columns
are parseable as integers).
-/

/-- Character list of a string literal. -/
def str (s : String) : List Char := s.data

/-- Whether `pat` is an initial segment of `s` (mirrors Python slice comparison
used by substring search). -/
def leadsWith : List Char → List Char → Bool
  | [], _ => true
  | _ :: _, [] => false
  | a :: pa, b :: pb => a == b && leadsWith pa pb

/-- Whether `pat` occurs as a contiguous substring of `s`
(Python `pat in s`). -/
def hasSub (pat : List Char) : List Char → Bool
  | [] => pat.isEmpty
  | c :: rest => leadsWith pat (c :: rest) || hasSub pat rest

/-- Fuel-driven worker for `replaceAll`; the fuel bounds the number of scanned
positions so the recursion is structural. -/
def replFuel (pat rep : List Char) : Nat → List Char → List Char
  | 0, s => s
  | _ + 1, [] => []
  | n + 1, c :: rest =>
    if leadsWith pat (c :: rest) then
      rep ++ replFuel pat rep n (List.drop pat.length (c :: rest))
    else
      c :: replFuel pat rep n rest

/-- Replace every (leftmost, non-overlapping) occurrence of `pat` by `rep`
(Python `s.replace(pat, rep)`). -/
def replaceAll (pat rep s : List Char) : List Char :=
  if pat.isEmpty then s else replFuel pat rep s.length s

/-- Strip leading and trailing whitespace (Python `s.strip()`). -/
def trimL (s : List Char) : List Char :=
  ((s.dropWhile Char.isWhitespace).reverse.dropWhile Char.isWhitespace).reverse

/-- Numeric value of a digit list (most significant first). -/
def digitsVal (l : List Char) : Nat :=
  l.foldl (fun n c => 10 * n + (c.toNat - 48)) 0

/-- A parsed numeric cell value in pandas' value domain: a finite (rational)
number or one of the two infinities.  NaN is not a value here: the final
filter's `notna()` treats it exactly like a failed parse, so the model folds
it into the missing value `none` of `Option PyFloat`. -/
inductive PyFloat where
  | fin (q : Rat)
  | pinf
  | ninf
deriving DecidableEq

/-- Strict order on parsed values, as pandas compares them:
negative infinity below every finite value, positive infinity above. -/
def PyFloat.lt : PyFloat → PyFloat → Prop
  | .ninf, .ninf => False
  | .ninf, .fin _ => True
  | .ninf, .pinf => True
  | .fin _, .ninf => False
  | .fin a, .fin b => a < b
  | .fin _, .pinf => True
  | .pinf, _ => False

instance : LT PyFloat := ⟨PyFloat.lt⟩

instance (a b : PyFloat) : Decidable (a < b) :=
  match a, b with
  | .ninf, .ninf => isFalse fun h => h
  | .ninf, .fin _ => isTrue True.intro
  | .ninf, .pinf => isTrue True.intro
  | .fin _, .ninf => isFalse fun h => h
  | .fin p, .fin q => inferInstanceAs (Decidable (p < q))
  | .fin _, .pinf => isTrue True.intro
  | .pinf, .ninf => isFalse fun h => h
  | .pinf, .fin _ => isFalse fun h => h
  | .pinf, .pinf => isFalse fun h => h

/-- Consume an optional leading sign, as the pandas numeric converter does:
returns whether the text was negated, and the remaining characters. -/
def readSign : List Char → Bool × List Char
  | '+' :: rest => (false, rest)
  | '-' :: rest => (true, rest)
  | s => (false, s)

/-- Parse the mantissa of a decimal literal: digits with an optional decimal
point (at least one digit overall).  Returns the digits' combined value, the
number of fractional digits, and the unconsumed remainder, so the mantissa
denotes `value / 10 ^ fracCount`. -/
def parseMantissa (s : List Char) : Option (Nat × Nat × List Char) :=
  let a := s.takeWhile Char.isDigit
  let r1 := s.dropWhile Char.isDigit
  match r1 with
  | '.' :: r2 =>
    let b := r2.takeWhile Char.isDigit
    let r3 := r2.dropWhile Char.isDigit
    if a.isEmpty && b.isEmpty then none
    else some (digitsVal a * 10 ^ b.length + digitsVal b, b.length, r3)
  | _ => if a.isEmpty then none else some (digitsVal a, 0, r1)

/-- Parse an optional exponent suffix `e`/`E` followed by an optionally
signed digit string that must consume the whole remainder; the result is the
exponent's sign and magnitude, `(false, 0)` when there is no suffix. -/
def parseExpPart : List Char → Option (Bool × Nat)
  | [] => some (false, 0)
  | c :: r =>
    if c == 'e' || c == 'E' then
      let p := readSign r
      let d := p.2.takeWhile Char.isDigit
      let r3 := p.2.dropWhile Char.isDigit
      if d.isEmpty || !r3.isEmpty then none
      else some (p.1, digitsVal d)
    else none

/-- The rational value of a parsed literal, from its sign, numerator digits
value, and power-of-ten denominator. -/
def ratVal (neg : Bool) (n d : Nat) : Rat :=
  mkRat (if neg then -(n : Int) else (n : Int)) d

/-- Model of `pd.to_numeric(text, errors='coerce')`: after stripping
whitespace and an optional sign, the text is either the case-insensitive
word `inf`/`infinity`, the word `nan` (downstream-indistinguishable from a
coercion failure, hence missing), or a decimal literal with optional
fraction and optional integer exponent; anything else coerces to the missing
value `none`. -/
def parseNum (l : List Char) : Option PyFloat :=
  let t := trimL l
  let p := readSign t
  let low := p.2.map Char.toLower
  if low == str "inf" || low == str "infinity" then
    some (if p.1 then PyFloat.ninf else PyFloat.pinf)
  else if low == str "nan" then none
  else
    match parseMantissa p.2 with
    | none => none
    | some (n, k, rest) =>
      match parseExpPart rest with
      | none => none
      | some (eneg, e) =>
        some (PyFloat.fin (if eneg then ratVal p.1 n (10 ^ (k + e))
                           else ratVal p.1 (n * 10 ^ e) (10 ^ k)))

/-- The column cleaner:
`pd.to_numeric(cell.astype(str).str.replace('-', ''), errors='coerce')` —
delete every dash character, then parse, coercing failures to missing. -/
def cleanCell (s : List Char) : Option PyFloat :=
  parseNum (replaceAll (str "-") [] s)

/-- One line of the source report: the label cell followed by one raw cell
per year column. -/
structure RawRow where
  label : String
  cells : List String
deriving DecidableEq

/-- The raw report: the year-column headers and the ordered rows. -/
structure RawTable where
  years : List Int
  rows : List RawRow
deriving DecidableEq

/-- One melted row of `df_melted`: label, year, and the cleaned wage cell. -/
structure MRow where
  label : String
  year : Int
  wage : Option PyFloat
deriving DecidableEq

/-- `df_clean.melt(id_vars=['Province and Sector'], ...)`: for each year
column in order, all rows in order; a row lacking a cell for some year
column behaves like the textual `nan` a missing CSV cell becomes. -/
def meltTable (t : RawTable) : List MRow :=
  t.years.enum.flatMap fun p =>
    t.rows.map fun r => ⟨r.label, p.2, cleanCell (r.cells.getD p.1 "nan").data⟩

/-- The classifier's running state: `current_province`, `current_sector`,
`current_job`. -/
structure PState where
  province : List Char
  sector : List Char
  job : List Char
deriving DecidableEq

/-- A melted row after classification, before the final filter: the fields
written into `df_melted` at a leaf row.  The wage may still be missing. -/
structure PreObs where
  province : List Char
  sector : List Char
  job_category : List Char
  gender : List Char
  year : Int
  wage : Option PyFloat
deriving DecidableEq

/-- The closed set of exact job-marker labels. -/
def jobMarkers : List (List Char) :=
  [str "Tea", str "Rubber", str "Coconut", str "Paddy", str "Carpentry", str "Masonry"]

/-- One iteration of the classification loop: given the running state and a
melted row, produce the next state and the leaf observation, if any.
Branches in source order: skip blank/`nan`, province header (with the
`All Island (d )` sentinel), sector header, exact job marker, exact gender
token, gendered leaf (`'Male' in label` checked before `'Female' in label`),
plain leaf defaulting to Male.  Total by construction: every label falls
into the final branch if nothing earlier matches. -/
def stepRow (st : PState) (label : String) (year : Int) (wage : Option PyFloat) :
    PState × Option PreObs :=
  let s := trimL label.data
  if s == str "nan" || s == [] then
    (st, none)
  else if hasSub (str "Province") s || s == str "All Island (d )" then
    let p := if s == str "All Island (d )" then str "All Island"
             else trimL (replaceAll (str "Province") [] s)
    ({ st with province := p }, none)
  else if hasSub (str "Sector") s then
    ({ st with sector := trimL (replaceAll (str "Sector") [] s) }, none)
  else if jobMarkers.contains s then
    ({ st with job := s }, none)
  else if s == str "Male" || s == str "Femal" then
    (st, some ⟨st.province, st.sector, st.job,
               if s == str "Femal" then str "Female" else str "Male", year, wage⟩)
  else if hasSub (str "Male") s then
    (st, some ⟨st.province, st.sector, trimL (replaceAll (str "- Male") [] s),
               str "Male", year, wage⟩)
  else if hasSub (str "Female") s then
    (st, some ⟨st.province, st.sector, trimL (replaceAll (str "- Female") [] s),
               str "Female", year, wage⟩)
  else
    (st, some ⟨st.province, st.sector, s, str "Male", year, wage⟩)

/-- The classification loop `for i, row in df_melted.iterrows()`, threading
the running state through the melted rows in order. -/
def processMelted (st : PState) : List MRow → List PreObs
  | [] => []
  | m :: rest =>
    match stepRow st m.label m.year m.wage with
    | (st2, none) => processMelted st2 rest
    | (st2, some o) => o :: processMelted st2 rest

/-- A normalized observation of the final table `df_final`. -/
structure Obs where
  province : List Char
  sector : List Char
  job_category : List Char
  gender : List Char
  year : Int
  daily_wage : PyFloat
deriving DecidableEq

/-- The final filter:
`df_melted[(Province != '') & (Daily_Wage.notna()) & (Daily_Wage > 0)]`. -/
def finalize (l : List PreObs) : List Obs :=
  l.filterMap fun o =>
    match o.wage with
    | some w =>
      if o.province ≠ [] ∧ PyFloat.fin 0 < w then
        some ⟨o.province, o.sector, o.job_category, o.gender, o.year, w⟩
      else none
    | none => none

/-- The whole parser `load_data` on an in-memory raw table: clean and melt,
classify with initially empty running state, filter. -/
def loadData (t : RawTable) : List Obs :=
  finalize (processMelted ⟨[], [], []⟩ (meltTable t))

/-- A label classified as a province header: it contains the word `Province`
or is the sentinel full-country marker `All Island (d )`. -/
def provHeader (s : List Char) : Bool :=
  hasSub (str "Province") (trimL s) || trimL s == str "All Island (d )"

/-- The province value a province-header label installs: the sentinel maps to
the literal `All Island`, otherwise the word `Province` is removed and the
remainder trimmed. -/
def provValue (s : List Char) : List Char :=
  if trimL s == str "All Island (d )" then str "All Island"
  else trimL (replaceAll (str "Province") [] (trimL s))

/-- A label whose text contains the word `Sector` (the only labels that can
change `current_sector`). -/
def sectHeader (s : List Char) : Bool :=
  hasSub (str "Sector") (trimL s)

lemma stepRow_provHeader (st : PState) (l : String) (y : Int) (w : Option PyFloat)
    (h : provHeader l.data = true) :
    stepRow st l y w = ({ st with province := provValue l.data }, none) := by
  have hA : ¬ trimL l.data = str "nan" := by
    intro e
    rw [provHeader, e] at h
    exact absurd h (by decide)
  have hB : ¬ trimL l.data = [] := by
    intro e
    rw [provHeader, e] at h
    exact absurd h (by decide)
  rw [provHeader] at h
  unfold stepRow provValue
  dsimp only
  rw [if_neg (by simp [hA, hB]), if_pos h]

lemma stepRow_emit (st : PState) (l : String) (y : Int) (w : Option PyFloat) (o : PreObs)
    (h : (stepRow st l y w).2 = some o) :
    (stepRow st l y w).1 = st ∧ o.province = st.province ∧ o.sector = st.sector ∧
      o.wage = w := by
  unfold stepRow at h ⊢
  dsimp only at h ⊢
  split_ifs at h ⊢ <;> simp_all <;> simp [← h]

lemma stepRow_fst_province (st : PState) (l : String) (y : Int) (w : Option PyFloat)
    (h : provHeader l.data = false) :
    (stepRow st l y w).1.province = st.province := by
  rw [provHeader] at h
  unfold stepRow
  dsimp only
  split_ifs with h1 h2 <;> simp_all

lemma stepRow_fst_sector (st : PState) (l : String) (y : Int) (w : Option PyFloat)
    (h : sectHeader l.data = false) :
    (stepRow st l y w).1.sector = st.sector := by
  rw [sectHeader] at h
  unfold stepRow
  dsimp only
  split_ifs <;> simp_all

lemma processMelted_prov_const {rows : List MRow} :
    ∀ {st : PState}, (∀ m ∈ rows, provHeader m.label.data = false) →
      ∀ o ∈ processMelted st rows, o.province = st.province := by
  induction rows with
  | nil => intro st _ o ho; simp [processMelted] at ho
  | cons m rest ih =>
    intro st h o ho
    rw [processMelted] at ho
    rcases hst : stepRow st m.label m.year m.wage with ⟨st2, oo⟩
    rw [hst] at ho
    have hprov : st2.province = st.province := by
      have := stepRow_fst_province st m.label m.year m.wage
        (h m (by simp))
      rw [hst] at this
      exact this
    cases oo with
    | none =>
      have := ih (fun m' hm' => h m' (by simp [hm'])) o ho
      rw [this, hprov]
    | some o' =>
      rcases List.mem_cons.1 ho with rfl | ho'
      · have := stepRow_emit st m.label m.year m.wage o (by rw [hst])
        exact this.2.1
      · have := ih (fun m' hm' => h m' (by simp [hm'])) o ho'
        rw [this, hprov]

lemma processMelted_sect_const {rows : List MRow} :
    ∀ {st : PState}, (∀ m ∈ rows, sectHeader m.label.data = false) →
      ∀ o ∈ processMelted st rows, o.sector = st.sector := by
  induction rows with
  | nil => intro st _ o ho; simp [processMelted] at ho
  | cons m rest ih =>
    intro st h o ho
    rw [processMelted] at ho
    rcases hst : stepRow st m.label m.year m.wage with ⟨st2, oo⟩
    rw [hst] at ho
    have hsect : st2.sector = st.sector := by
      have := stepRow_fst_sector st m.label m.year m.wage
        (h m (by simp))
      rw [hst] at this
      exact this
    cases oo with
    | none =>
      have := ih (fun m' hm' => h m' (by simp [hm'])) o ho
      rw [this, hsect]
    | some o' =>
      rcases List.mem_cons.1 ho with rfl | ho'
      · have := stepRow_emit st m.label m.year m.wage o (by rw [hst])
        exact this.2.2.1
      · have := ih (fun m' hm' => h m' (by simp [hm'])) o ho'
        rw [this, hsect]

/-- The classifier state after folding a list of melted rows; lets a theorem
speak about the output of a table split around one of its cells. -/
def stateAfter (st : PState) : List MRow → PState
  | [] => st
  | m :: rest => stateAfter (stepRow st m.label m.year m.wage).1 rest

lemma stateAfter_append (xs : List MRow) :
    ∀ (st : PState) (ys : List MRow),
      stateAfter st (xs ++ ys) = stateAfter (stateAfter st xs) ys := by
  induction xs with
  | nil => intro st ys; rfl
  | cons m rest ih =>
    intro st ys
    rw [List.cons_append, stateAfter, stateAfter]
    exact ih _ ys

lemma processMelted_append (xs : List MRow) :
    ∀ (st : PState) (ys : List MRow),
      processMelted st (xs ++ ys) =
        processMelted st xs ++ processMelted (stateAfter st xs) ys := by
  induction xs with
  | nil => intro st ys; rfl
  | cons m rest ih =>
    intro st ys
    rw [List.cons_append, processMelted, processMelted, stateAfter]
    rcases hst : stepRow st m.label m.year m.wage with ⟨st2, oo⟩
    cases oo with
    | none =>
      show processMelted st2 (rest ++ ys) =
        processMelted st2 rest ++ processMelted (stateAfter st2 rest) ys
      exact ih st2 ys
    | some o =>
      show o :: processMelted st2 (rest ++ ys) =
        (o :: processMelted st2 rest) ++ processMelted (stateAfter st2 rest) ys
      rw [List.cons_append]
      exact congrArg (List.cons o) (ih st2 ys)

lemma finalize_append (a b : List PreObs) :
    finalize (a ++ b) = finalize a ++ finalize b := by
  unfold finalize
  rw [List.filterMap_append]

lemma finalize_skip_missing (st : PState) (m : MRow) (post : List MRow)
    (hm : m.wage = none) :
    finalize (processMelted st (m :: post)) =
      finalize (processMelted (stateAfter st [m]) post) := by
  have hsa : stateAfter st [m] = (stepRow st m.label m.year m.wage).1 := by
    rw [stateAfter, stateAfter]
  rw [processMelted, hsa]
  rcases hst : stepRow st m.label m.year m.wage with ⟨st2, oo⟩
  cases oo with
  | none => rfl
  | some o =>
    have hw := (stepRow_emit st m.label m.year m.wage o (by rw [hst])).2.2.2
    rw [hm] at hw
    show finalize (o :: processMelted st2 post) = finalize (processMelted st2 post)
    unfold finalize
    rw [List.filterMap_cons]
    rw [hw]

lemma mem_finalize {l : List PreObs} {o : Obs} (h : o ∈ finalize l) :
    ∃ p ∈ l, p.province = o.province ∧ p.sector = o.sector ∧
      p.wage = some o.daily_wage ∧ o.province ≠ [] ∧ PyFloat.fin 0 < o.daily_wage := by
  unfold finalize at h
  rcases List.mem_filterMap.1 h with ⟨p, hp, he⟩
  rcases hw : p.wage with _ | w
  · rw [hw] at he; simp at he
  · rw [hw] at he
    dsimp only at he
    split_ifs at he with hc
    · have he2 := Option.some_inj.1 he
      subst he2
      exact ⟨p, hp, rfl, rfl, hw, hc.1, hc.2⟩

lemma meltTable_label {t : RawTable} {m : MRow} (h : m ∈ meltTable t) :
    ∃ r ∈ t.rows, m.label = r.label := by
  unfold meltTable at h
  rcases List.mem_flatMap.1 h with ⟨p, _, hm⟩
  rcases List.mem_map.1 hm with ⟨r, hr, he⟩
  exact ⟨r, hr, by rw [← he]⟩

/-- The worked example of the spec: five rows, one year column. -/
def c1Table : RawTable :=
  ⟨[2020], [⟨"Western Province", ["-"]⟩, ⟨"Plantation Sector", ["-"]⟩,
            ⟨"Tea", ["-"]⟩, ⟨"Male", ["500"]⟩, ⟨"Femal", ["400"]⟩]⟩

/-- Claim C1: on the input with rows `["Western Province", "Plantation Sector",
"Tea", "Male", "Femal"]`, single year column 2020 and cells `[-, -, -, 500,
400]`, the parser produces exactly the two observations (Western, Plantation,
Tea, Male, 2020, 500) and (Western, Plantation, Tea, Female, 2020, 400), in
that order, and no others. -/
theorem c1_two_observations :
    loadData c1Table =
      [⟨str "Western", str "Plantation", str "Tea", str "Male", 2020, PyFloat.fin 500⟩,
       ⟨str "Western", str "Plantation", str "Tea", str "Female", 2020, PyFloat.fin 400⟩] := by
  decide

/-- Claim C2: every observation in the parser's output has a non-empty
province and a parsed wage strictly greater than zero (the year is an integer
by the type of `Obs.year`); melted rows violating these are dropped by the
final filter rather than retained with null fields, so mere membership in the
output forces both conditions. -/
theorem c2_output_invariant (t : RawTable) (o : Obs) (h : o ∈ loadData t) :
    o.province ≠ [] ∧ PyFloat.fin 0 < o.daily_wage := by
  unfold loadData at h
  rcases mem_finalize h with ⟨p, _, _, _, _, h4, h5⟩
  exact ⟨h4, h5⟩

/-- Input used to witness claim C2. -/
def c2Table : RawTable :=
  ⟨[2021], [⟨"Central Province", ["-"]⟩, ⟨"Weeding", ["320"]⟩]⟩

theorem c2_witness :
    (⟨str "Central", [], str "Weeding", str "Male", 2021, PyFloat.fin 320⟩ : Obs).province ≠ [] ∧
      PyFloat.fin 0 < (⟨str "Central", [], str "Weeding", str "Male", 2021, PyFloat.fin 320⟩ : Obs).daily_wage :=
  c2_output_invariant c2Table ⟨str "Central", [], str "Weeding", str "Male", 2021, PyFloat.fin 320⟩
    (by decide)

/-- Claim C3: a row whose label contains the word `Province` (or is the
sentinel `All Island (d )`) emits no observation and installs the stripped
label (resp. the literal `All Island`) as the running province; every
observation produced by the subsequent rows, as long as no further
province/sentinel header occurs among them, carries exactly that province
value. -/
theorem c3_province_header_scope (st : PState) (l : String) (y : Int)
    (w : Option PyFloat) (rest : List MRow) (o : PreObs)
    (hh : provHeader l.data = true)
    (hrest : ∀ m ∈ rest, provHeader m.label.data = false)
    (ho : o ∈ processMelted st (⟨l, y, w⟩ :: rest)) :
    (stepRow st l y w).2 = none ∧
      (stepRow st l y w).1.province = provValue l.data ∧
      o.province = provValue l.data := by
  have he := stepRow_provHeader st l y w hh
  refine ⟨by rw [he], by rw [he], ?_⟩
  have hp : processMelted st (⟨l, y, w⟩ :: rest) =
      processMelted { st with province := provValue l.data } rest := by
    rw [processMelted]
    dsimp only
    rw [he]
  rw [hp] at ho
  simpa using processMelted_prov_const hrest o ho

/-- Rows following the province header in the witness for claim C3. -/
def c3Rest : List MRow := [⟨"Weaving", 2020, some (PyFloat.fin 500)⟩]

theorem c3_witness :
    (stepRow ⟨[], [], []⟩ "Western Province" 2020 none).2 = none ∧
      (stepRow ⟨[], [], []⟩ "Western Province" 2020 none).1.province =
        provValue (str "Western Province") ∧
      (⟨str "Western", [], str "Weaving", str "Male", 2020, some (PyFloat.fin 500)⟩ :
        PreObs).province = provValue (str "Western Province") :=
  c3_province_header_scope ⟨[], [], []⟩ "Western Province" 2020 none c3Rest
    ⟨str "Western", [], str "Weaving", str "Male", 2020, some (PyFloat.fin 500)⟩
    (by decide) (by decide) (by decide)

/-- Claim C8: a row whose stripped label is empty or the textual null marker
`nan` is skipped: it emits no observation and leaves the whole running state
(province, sector, job) unchanged. -/
theorem c8_blank_skip (st : PState) (l : String) (y : Int) (w : Option PyFloat)
    (h : trimL l.data = [] ∨ trimL l.data = str "nan") :
    stepRow st l y w = (st, none) := by
  unfold stepRow
  dsimp only
  rw [if_pos]
  rcases h with h | h <;> rw [h] <;> decide

theorem c8_witness :
    stepRow ⟨str "Western", str "Rural", str "Tea"⟩ "   " 2020 (some (PyFloat.fin 100)) =
      (⟨str "Western", str "Rural", str "Tea"⟩, none) :=
  c8_blank_skip ⟨str "Western", str "Rural", str "Tea"⟩ "   " 2020 (some (PyFloat.fin 100))
    (Or.inl (by decide))

/-- Claim C9: the parser is deterministic — two runs on the same unchanged
input produce identical normalized tables (same rows, same values, same
order).  The parse is a pure function of the raw table, so equal inputs give
equal outputs. -/
theorem c9_deterministic (t1 t2 : RawTable) (h : t1 = t2) :
    loadData t1 = loadData t2 := by
  rw [h]

/-- Input used to witness claim C9. -/
def c9Table : RawTable :=
  ⟨[2020], [⟨"Western Province", ["-"]⟩, ⟨"Male", ["250"]⟩]⟩

theorem c9_witness : loadData c9Table = loadData c9Table :=
  c9_deterministic c9Table c9Table rfl

/-- Input used for claim C10: the cell text is a dash immediately followed by
digits. -/
def c10Table : RawTable :=
  ⟨[2020], [⟨"Western Province", ["-"]⟩, ⟨"Tea", ["-"]⟩, ⟨"Male", ["-400"]⟩]⟩

/-- Claim C5: the column cleaner strips the dash placeholder and parses the
remainder (`cleanCell` is by definition that composition); a failed parse or
an empty cell yields the distinct missing value `none` (not zero, not an
error); and a missing cell never contributes an observation even amid valid
cells: splitting the melted table anywhere around a missing-wage row, the
output is exactly the output of the surrounding rows (the missing row
contributes nothing, though its label still advances the classifier state),
and no retained observation carries wage 0. -/
theorem c5_missing_cells (t : RawTable) (pre post : List MRow) (m : MRow)
    (s : List Char) (o : Obs)
    (hsplit : meltTable t = pre ++ m :: post) (hm : m.wage = none)
    (ho : o ∈ loadData t) :
    loadData t =
        finalize (processMelted ⟨[], [], []⟩ pre) ++
          finalize (processMelted (stateAfter ⟨[], [], []⟩ (pre ++ [m])) post) ∧
      o.daily_wage ≠ PyFloat.fin 0 ∧
      cleanCell (str "-") = none ∧ cleanCell [] = none ∧
      cleanCell s = parseNum (replaceAll (str "-") [] s) := by
  refine ⟨?_, ?_, by decide, by decide, rfl⟩
  · unfold loadData
    rw [hsplit, processMelted_append, finalize_append,
        finalize_skip_missing _ _ _ hm, stateAfter_append]
  · unfold loadData at ho
    rcases mem_finalize ho with ⟨p, _, _, _, _, _, hpos⟩
    intro e
    rw [e] at hpos
    exact absurd hpos (by decide)

/-- Input used to witness claim C5: a mixed table with a malformed cell (the
`Thatching` row) sitting between a province header and a leaf row holding a
valid wage. -/
def c5Table : RawTable :=
  ⟨[2020], [⟨"Western Province", ["-"]⟩, ⟨"Thatching", ["abc"]⟩,
            ⟨"Weaving", ["500"]⟩]⟩

theorem c5_witness :
    loadData c5Table =
        finalize (processMelted ⟨[], [], []⟩ [⟨"Western Province", 2020, none⟩]) ++
          finalize (processMelted
            (stateAfter ⟨[], [], []⟩
              ([⟨"Western Province", 2020, none⟩] ++ [⟨"Thatching", 2020, none⟩]))
            [⟨"Weaving", 2020, some (PyFloat.fin 500)⟩]) ∧
      (⟨str "Western", [], str "Weaving", str "Male", 2020, PyFloat.fin 500⟩ :
          Obs).daily_wage ≠ PyFloat.fin 0 ∧
      cleanCell (str "-") = none ∧ cleanCell [] = none ∧
      cleanCell (str "x7") = parseNum (replaceAll (str "-") [] (str "x7")) :=
  c5_missing_cells c5Table [⟨"Western Province", 2020, none⟩]
    [⟨"Weaving", 2020, some (PyFloat.fin 500)⟩]
    ⟨"Thatching", 2020, none⟩ (str "x7")
    ⟨str "Western", [], str "Weaving", str "Male", 2020, PyFloat.fin 500⟩
    (by decide) rfl (by decide)

/-- Claim C6: a non-blank label matching no earlier classification rule — not
a province header or the sentinel, not a sector header, not an exact job
marker, and containing no gender marker (not the exact tokens `Male`/`Femal`
and containing neither `Male` nor `Female`) — is treated as a leaf with
gender defaulting to `Male` and job category the stripped label itself, and
classification is total (`stepRow` always returns, never raising). -/
theorem c6_plain_leaf_default (st : PState) (l : String) (y : Int) (w : Option PyFloat)
    (h1 : trimL l.data ≠ str "nan") (h2 : trimL l.data ≠ [])
    (h3 : hasSub (str "Province") (trimL l.data) = false)
    (h4 : trimL l.data ≠ str "All Island (d )")
    (h5 : hasSub (str "Sector") (trimL l.data) = false)
    (h6 : jobMarkers.contains (trimL l.data) = false)
    (h7 : trimL l.data ≠ str "Femal")
    (h8 : hasSub (str "Male") (trimL l.data) = false)
    (h9 : hasSub (str "Female") (trimL l.data) = false) :
    stepRow st l y w =
      (st, some ⟨st.province, st.sector, trimL l.data, str "Male", y, w⟩) := by
  have hMale : trimL l.data ≠ str "Male" := by
    intro e
    rw [e] at h8
    exact absurd h8 (by decide)
  unfold stepRow
  dsimp only
  rw [if_neg (by simp [h1, h2]), if_neg (by simp [h3, h4]), if_neg (by simp [h5]),
      if_neg (by simpa using h6), if_neg (by simp [hMale, h7]), if_neg (by simp [h8]),
      if_neg (by simp [h9])]

theorem c6_witness :
    stepRow ⟨str "Uva", str "Agriculture", str "Tea"⟩ "Weeding" 2022 (some (PyFloat.fin 275)) =
      (⟨str "Uva", str "Agriculture", str "Tea"⟩,
       some ⟨str "Uva", str "Agriculture", str "Weeding", str "Male", 2022, some (PyFloat.fin 275)⟩) :=
  c6_plain_leaf_default ⟨str "Uva", str "Agriculture", str "Tea"⟩ "Weeding" 2022
    (some (PyFloat.fin 275)) (by decide) (by decide) (by decide) (by decide) (by decide)
    (by decide) (by decide) (by decide) (by decide)

/-- Input refuting claim C7: a leaf row preceded by a province header but by
no sector header. -/
def c7Table : RawTable :=
  ⟨[2020], [⟨"Western Province", ["-"]⟩, ⟨"Tea", ["-"]⟩, ⟨"Male", ["500"]⟩]⟩

/-- Claim C7 is false of the code: the final filter checks only the province,
so a leaf row that no sector header precedes is emitted with an empty sector
string.  On `c7Table` the output contains exactly one observation and its
sector is empty. -/
theorem c7_sector_cex :
    loadData c7Table = [⟨str "Western", [], str "Tea", str "Male", 2020, PyFloat.fin 500⟩] ∧
      (⟨str "Western", [], str "Tea", str "Male", 2020, PyFloat.fin 500⟩ : Obs).sector = [] := by
  decide

/-- Claim C7 amended: observations inherit the running sector value, which the
filter never checks and which is empty until the first sector header; in
particular on any input without a sector-header row every output observation
has an empty sector. -/
theorem c7_sector_inherited (t : RawTable) (o : Obs)
    (h : ∀ r ∈ t.rows, sectHeader r.label.data = false)
    (ho : o ∈ loadData t) :
    o.sector = [] := by
  unfold loadData at ho
  rcases mem_finalize ho with ⟨p, hp, _, hsec, _, _, _⟩
  have hall : ∀ m ∈ meltTable t, sectHeader m.label.data = false := by
    intro m hm
    rcases meltTable_label hm with ⟨r, hr, he⟩
    rw [he]
    exact h r hr
  have hps := processMelted_sect_const hall p hp
  rw [← hsec]
  exact hps

theorem c7_witness :
    (⟨str "Western", [], str "Tea", str "Male", 2020, PyFloat.fin 500⟩ : Obs).sector = [] :=
  c7_sector_inherited c7Table ⟨str "Western", [], str "Tea", str "Male", 2020, PyFloat.fin 500⟩
    (by decide) (by decide)

/-- Input refuting claim C4: the leaf label `Masonry Male` contains the
marker `Male` but not its dashed form `- Male`. -/
def c4Table : RawTable :=
  ⟨[2020], [⟨"Western Province", ["-"]⟩, ⟨"Masonry Male", ["100"]⟩]⟩

/-- Claim C4 is false of the code as stated: for the leaf label
`Masonry Male`, which contains the marker `Male` as a substring, the claim
predicts job_category `Masonry` (the label with the marker substring removed
and trimmed), but the code only removes the dashed form `- Male`, so the
emitted job_category keeps the marker: it is the full label `Masonry Male`. -/
theorem c4_marker_cex :
    loadData c4Table =
        [⟨str "Western", [], str "Masonry Male", str "Male", 2020, PyFloat.fin 100⟩] ∧
      trimL (replaceAll (str "Male") [] (str "Masonry Male")) = str "Masonry" ∧
      str "Masonry Male" ≠ str "Masonry" := by
  decide

/-- Claim C4 amended: for a leaf row whose label is not exactly a gender
token but contains `Male` (checked first) or `Female` as a substring, gender
is set according to that marker and job_category is the label with the dashed
marker form `- Male` (resp. `- Female`) removed and trimmed — a no-op when
the label lacks that exact dashed form — independently of the `current_job`
state; the state itself is unchanged. -/
theorem c4_gendered_leaf (st : PState) (l : String) (y : Int) (w : Option PyFloat)
    (h1 : trimL l.data ≠ str "nan") (h2 : trimL l.data ≠ [])
    (h3 : hasSub (str "Province") (trimL l.data) = false)
    (h4 : trimL l.data ≠ str "All Island (d )")
    (h5 : hasSub (str "Sector") (trimL l.data) = false)
    (h6 : jobMarkers.contains (trimL l.data) = false)
    (h7 : trimL l.data ≠ str "Male") (h8 : trimL l.data ≠ str "Femal")
    (h9 : hasSub (str "Male") (trimL l.data) = true ∨
          hasSub (str "Female") (trimL l.data) = true) :
    stepRow st l y w =
      (st, some ⟨st.province, st.sector,
        (if hasSub (str "Male") (trimL l.data) = true then
          trimL (replaceAll (str "- Male") [] (trimL l.data))
         else trimL (replaceAll (str "- Female") [] (trimL l.data))),
        (if hasSub (str "Male") (trimL l.data) = true then str "Male"
         else str "Female"), y, w⟩) := by
  unfold stepRow
  dsimp only
  rw [if_neg (by simp [h1, h2]), if_neg (by simp [h3, h4]), if_neg (by simp [h5]),
      if_neg (by simpa using h6), if_neg (by simp [h7, h8])]
  by_cases hM : hasSub (str "Male") (trimL l.data) = true
  · simp [hM]
  · rcases h9 with h9 | h9
    · exact absurd h9 hM
    · simp [hM, h9]

theorem c4_witness :
    stepRow ⟨str "Uva", str "Construction", []⟩ "Carpentry - Female" 2021
        (some (PyFloat.fin 350)) =
      (⟨str "Uva", str "Construction", []⟩,
       some ⟨str "Uva", str "Construction", str "Carpentry", str "Female", 2021,
             some (PyFloat.fin 350)⟩) :=
  (c4_gendered_leaf ⟨str "Uva", str "Construction", []⟩ "Carpentry - Female" 2021
    (some (PyFloat.fin 350)) (by decide) (by decide) (by decide) (by decide) (by decide)
    (by decide) (by decide) (by decide) (Or.inr (by decide))).trans (by decide)

/-- Claim C10 (implicit): the column cleaner deletes every dash character,
not only a bare placeholder dash, so the cell `-400` becomes the text `400`,
parses to the positive number 400, and is emitted as a valid wage rather than
treated as missing or negative. -/
theorem c10_dash_digits :
    replaceAll (str "-") [] (str "-400") = str "400" ∧
      cleanCell (str "-400") = some (PyFloat.fin 400) ∧
      loadData c10Table = [⟨str "Western", [], str "Tea", str "Male", 2020, PyFloat.fin 400⟩] := by
  decide
